import Mathlib

/-!
Verification of the animal-guessing game (src/animal_guess.py).

The embedding works at two levels, matching the two halves of the program:

* Strings are modelled as lists of Unicode code points (`List Nat`); the
  CPython string operations used by the program (strip, lower, capitalize,
  startswith, negative indexing, slicing off the last character) are
  translated for the ASCII range the game works with.  Interactive input is
  modelled as the list of lines the user types; a prompting loop that reads
  lines until one is accepted becomes a recursion over that list, returning
  `none` when the input is exhausted (the Python loop would still be
  blocked waiting for input at that point).

* The object graph of `Node` dataclasses is modelled as a store mapping
  object identities (natural numbers) to node records, since the teaching
  algorithm mutates nodes in place through parent back-references.
  Python's dataclass equality (`==`, structural, with CPython's identity
  short-circuit in `PyObject_RichCompareBool`) is modelled by `pyEq`,
  fuel-bounded recursion; any fuel at least as large as the depth at which
  the comparison resolves yields CPython's answer.
-/

namespace AnimalGuess

/-- Code points of a string literal, the model of a Python `str`. -/
def pyStr (s : String) : List Nat := s.data.map Char.toNat

/-- Whitespace stripped by CPython's `str.strip()` in the ASCII range:
space, tab, newline, vertical tab, form feed, carriage return. -/
def isSpace (c : Nat) : Bool := c = 32 || c = 9 || c = 10 || c = 11 || c = 12 || c = 13

/-- ASCII case of `str.lower()` applied to one character. -/
def charLower (c : Nat) : Nat := if 65 ≤ c ∧ c ≤ 90 then c + 32 else c

/-- ASCII case of `str.upper()` applied to one character. -/
def charUpper (c : Nat) : Nat := if 97 ≤ c ∧ c ≤ 122 then c - 32 else c

/-- Python `s.lower()`. -/
def pyLower (l : List Nat) : List Nat := l.map charLower

/-- Python `s.capitalize()`: first character upper-cased, the rest lower-cased. -/
def pyCapitalize : List Nat → List Nat
  | [] => []
  | c :: cs => charUpper c :: pyLower cs

/-- Leading-whitespace removal, the first half of `str.strip()`. -/
def stripLeft (l : List Nat) : List Nat := l.dropWhile isSpace

/-- Trailing-whitespace removal, the second half of `str.strip()`. -/
def stripRight (l : List Nat) : List Nat := (l.reverse.dropWhile isSpace).reverse

/-- Python `s.strip()`. -/
def strip (l : List Nat) : List Nat := stripRight (stripLeft l)

/-- Code points of the literal `'yes'` from `get_yes_or_no`. -/
def yesWord : List Nat := pyStr "yes"

/-- Code points of the literal `'no'` from `get_yes_or_no`. -/
def noWord : List Nat := pyStr "no"

/-- Code point of `'?'`. -/
def qmark : Nat := 63

/-- Translation of `get_yes_or_no` (animal_guess.py lines 72-97): read a
line, strip and lower it; `'yes'.startswith(answer)` returns `True`,
`'no'.startswith(answer)` returns `False`, anything else re-prompts.
The argument is the list of lines the user types; `none` means every line
was rejected and the loop is still waiting for input. -/
def get_yes_or_no : List (List Nat) → Option Bool
  | [] => none
  | line :: rest =>
    let answer := pyLower (strip line)
    if answer.isPrefixOf yesWord then some true
    else if answer.isPrefixOf noWord then some false
    else get_yes_or_no rest

/-- Normalization applied by `get_question` (lines 186-191) to a stripped,
non-empty input line: `question.lower().capitalize()`, then drop the last
character when it is `'?'`. -/
def normalizeQuestion (t : List Nat) : List Nat :=
  let q := pyCapitalize (pyLower t)
  if q.getLast? = some qmark then q.dropLast else q

/-- Translation of `get_question` (lines 170-198) as an automaton over the
line stream.  The nested loops of the source — the outer `while True` that
reads and normalizes a candidate question, and the inner `get_yes_or_no`
confirmation that consumes further lines — become one recursion whose
`pending` state is `none` while a question line is awaited and
`some q` while the confirmation of the normalized text `q` is awaited.
An empty (stripped) line re-prompts without consuming a confirmation; a
rejected confirmation returns to the outer loop. -/
def get_question_aux (pending : Option (List Nat)) : List (List Nat) → Option (List Nat)
  | [] => none
  | line :: rest =>
    match pending with
    | some q =>
      let answer := pyLower (strip line)
      if answer.isPrefixOf yesWord then some q
      else if answer.isPrefixOf noWord then get_question_aux none rest
      else get_question_aux (some q) rest
    | none =>
      let t := strip line
      if t = [] then get_question_aux none rest
      else get_question_aux (some (normalizeQuestion t)) rest

/-- Entry point of `get_question`: start in the question-awaiting state. -/
def get_question (input : List (List Nat)) : Option (List Nat) :=
  get_question_aux none input

/-- Node records of the object graph: the `Guess` and `Question`
dataclasses of the source (lines 29-69).  Children and parents are object
identities into a `Store`; `parent` is `none` for a root. -/
inductive Node where
  | Guess (parent : Option Nat) (animal_name : List Nat)
  | Question (parent : Option Nat) (question : List Nat) (positive : Nat) (negative : Nat)
deriving DecidableEq, Repr

/-- Object store: `size` identities are allocated; `data` gives the record
at each identity (values at unallocated identities are irrelevant). -/
structure Store where
  size : Nat
  data : Nat → Node

/-- Overwrite the record at identity `i` (an in-place field mutation). -/
def Store.set (h : Store) (i : Nat) (v : Node) : Store :=
  ⟨h.size, fun j => if j = i then v else h.data j⟩

/-- Allocate a fresh object holding `v`, returning the new store and the
new object's identity. -/
def Store.alloc (h : Store) (v : Node) : Store × Nat :=
  (⟨h.size + 1, fun j => if j = h.size then v else h.data j⟩, h.size)

/-- Read the `parent` field of the object at identity `i`. -/
def parentOf (h : Store) (i : Nat) : Option Nat :=
  match h.data i with
  | .Guess p _ => p
  | .Question p _ _ _ => p

/-- Record `n` with its `parent` field replaced by `p`. -/
def withParent : Node → Option Nat → Node
  | .Guess _ nm, p => .Guess p nm
  | .Question _ q a b, p => .Question p q a b

/-- Assignment `node.parent = p` on the object at identity `i`. -/
def setParent (h : Store) (i : Nat) (p : Option Nat) : Store :=
  h.set i (withParent (h.data i) p)

/-- Python dataclass `==` between the objects at identities `i` and `j`:
`True` on identical objects (CPython's identity short-circuit), otherwise
fieldwise comparison, recursing through parent references and children.
`fuel` bounds the recursion depth; any fuel at least as large as the depth
at which CPython's comparison resolves yields CPython's answer. -/
def pyEq (h : Store) : Nat → Nat → Nat → Bool
  | 0, _, _ => false
  | fuel + 1, i, j =>
    if i = j then true
    else
      match h.data i, h.data j with
      | .Guess p1 n1, .Guess p2 n2 =>
        (match p1, p2 with
         | none, none => true
         | some a, some b => pyEq h fuel a b
         | _, _ => false) && decide (n1 = n2)
      | .Question p1 q1 a1 b1, .Question p2 q2 a2 b2 =>
        (match p1, p2 with
         | none, none => true
         | some a, some b => pyEq h fuel a b
         | _, _ => false) && decide (q1 = q2) && pyEq h fuel a1 a2 && pyEq h fuel b1 b2
      | _, _ => false

/-- Replace-child step of `add_new_question` (lines 154-160): when the old
guess's parent is a `Question`, overwrite whichever of its child slots
compares `==` (Python structural equality) to the old guess — the
negative slot is tested first — with the new question's identity; when
the parent is absent or not a `Question`, do nothing. -/
def replaceChildStep (h : Store) (old_guess new_question : Nat) : Store :=
  match parentOf h old_guess with
  | none => h
  | some p =>
    match h.data p with
    | .Question pp q a b =>
      if pyEq h (h.size + 2) b old_guess then h.set p (.Question pp q a new_question)
      else if pyEq h (h.size + 2) a old_guess then h.set p (.Question pp q new_question b)
      else h
    | .Guess _ _ => h

/-- Translation of `add_new_question` (lines 129-167), with the two
interactive inputs (the confirmed new animal name and the confirmed
question text) passed as arguments.  Creates the new `Guess` and the new
`Question` (positive = new guess, negative = old guess, parent = `None`);
runs the replace-child step on the old guess's parent; finally assigns
the parents of the new guess and the old guess.  Returns the store and
the identities of the new question and new guess. -/
def add_new_question (h : Store) (old_guess : Nat) (new_animal_name new_q : List Nat) :
    Store × Nat × Nat :=
  let r1 := h.alloc (.Guess none new_animal_name)
  let h1 := r1.1
  let new_guess := r1.2
  let r2 := h1.alloc (.Question none new_q new_guess old_guess)
  let h2 := r2.1
  let new_question := r2.2
  let h3 := replaceChildStep h2 old_guess new_question
  let h4 := setParent h3 new_guess (some new_question)
  let h5 := setParent h4 old_guess (some new_question)
  (h5, new_question, new_guess)

/-- Translation of `do_guess` (lines 100-126), with the user's yes/no
answer to the guess and the two teach inputs passed as arguments.  Returns
the store, the (possibly replaced) root, and whether `save_data()` ran.
On a correct guess it returns immediately; otherwise `is_root` is read
from the old guess's parent before teaching, the teach runs, the root is
replaced when `is_root`, and the tree is saved unconditionally. -/
def do_guess (h : Store) (root g : Nat) (correct : Bool) (nm qt : List Nat) :
    Store × Nat × Bool :=
  if correct then (h, root, false)
  else
    let is_root := parentOf h g = none
    let r := add_new_question h g nm qt
    let root' := if is_root then r.2.1 else root
    (r.1, root', true)

/-- Translation of `play` together with `do_question` (lines 211-239):
starting at identity `i` with the user's yes/no answers given by the
stream `ans` (consumed from index `k`), follow `positive` on yes and
`negative` on no until a `Guess` is reached.  Returns the list of
`Question` identities visited and the identity of the final `Guess`;
`none` when `fuel` runs out (the source would recurse forever only on a
cyclic object graph). -/
def play (h : Store) (ans : Nat → Bool) : Nat → Nat → Nat → Option (List Nat × Nat)
  | 0, _, _ => none
  | fuel + 1, k, i =>
    match h.data i with
    | .Guess _ _ => some ([], i)
    | .Question _ _ pos neg =>
      match play h ans fuel (k + 1) (if ans k then pos else neg) with
      | none => none
      | some (vs, g) => some (i :: vs, g)

/-- Finite well-founded trees in the store: the section-3 shape invariant
(finite, acyclic, every node reachable from the root is a `Guess` leaf or
a `Question` with two subtrees). -/
inductive IsTree (h : Store) : Nat → Prop
  | guess (i : Nat) (p : Option Nat) (nm : List Nat) :
      h.data i = .Guess p nm → IsTree h i
  | question (i : Nat) (p : Option Nat) (q : List Nat) (a b : Nat) :
      h.data i = .Question p q a b → IsTree h a → IsTree h b → IsTree h i

/-- Path dictated by the spec's words: from node `i`, answer index `k`,
follow the positive child on yes and the negative child on no; the listed
nodes are the questions visited and the last component is the `Guess`
ending the path. -/
inductive SpecPath (h : Store) (ans : Nat → Bool) : Nat → Nat → List Nat → Nat → Prop
  | guess (k i : Nat) (p : Option Nat) (nm : List Nat) :
      h.data i = .Guess p nm → SpecPath h ans k i [] i
  | qyes (k i : Nat) (p : Option Nat) (q : List Nat) (a b : Nat) (vs : List Nat) (g : Nat) :
      h.data i = .Question p q a b → ans k = true →
      SpecPath h ans (k + 1) a vs g → SpecPath h ans k i (i :: vs) g
  | qno (k i : Nat) (p : Option Nat) (q : List Nat) (a b : Nat) (vs : List Nat) (g : Nat) :
      h.data i = .Question p q a b → ans k = false →
      SpecPath h ans (k + 1) b vs g → SpecPath h ans k i (i :: vs) g

/-- Modelled from the spec and claims, for comparison with the code: a
line is accepted by the yes/no prompt when its stripped, lowered form is
a prefix of the word yes or of the word no. -/
def acceptsLine (line : List Nat) : Bool :=
  (pyLower (strip line)).isPrefixOf yesWord || (pyLower (strip line)).isPrefixOf noWord

/-- Modelled from the spec and claims, for comparison with the code: an
accepted line counts as a yes answer when its stripped, lowered form is a
prefix of the word yes. -/
def saysYes (line : List Nat) : Bool :=
  (pyLower (strip line)).isPrefixOf yesWord

/-- Uppercase only the first character, leaving the rest unchanged (used
to state the claimed form of the stored question text). -/
def capitalizeFirst : List Nat → List Nat
  | [] => []
  | c :: cs => charUpper c :: cs

/-- Modelled from claim C10's words: the trimmed input with every
character lowercased and then only the first character capitalized, with
at most one trailing question mark removed afterwards. -/
def claimQuestionText (line : List Nat) : List Nat :=
  let t := capitalizeFirst (pyLower (strip line))
  if t.getLast? = some qmark then t.dropLast else t

/-- Shape condition on a stripped input line under which the claimed
normalization guarantees (non-empty, trimmed, no trailing question mark)
do hold: when the line ends in a question mark, the character before it
exists and is neither a question mark nor whitespace. -/
def goodShape (t : List Nat) : Prop :=
  t ≠ [] ∧ (t.getLast? = some qmark →
    t.dropLast ≠ [] ∧ ∀ c, t.dropLast.getLast? = some c → c ≠ qmark ∧ isSpace c = false)

/-- Concrete store: a root `Question` (identity 0) whose positive child is
`Guess cat` (identity 1) and negative child is `Guess dog` (identity 2),
with consistent parent references — the state one teach produces from the
seed tree. -/
def storeCatDog : Store :=
  ⟨3, fun i =>
    if i = 0 then .Question none (pyStr "does it meow") 1 2
    else if i = 1 then .Guess (some 0) (pyStr "cat")
    else .Guess (some 0) (pyStr "dog")⟩

/-- Concrete store: a root `Question` (identity 0) whose two children
(identities 1 and 2) are distinct but structurally equal `Guess dog`
objects — the state produced by naming the seed animal itself during the
first teach. -/
def storeDogDog : Store :=
  ⟨3, fun i =>
    if i = 0 then .Question none (pyStr "does it bark") 1 2
    else if i = 1 then .Guess (some 0) (pyStr "dog")
    else .Guess (some 0) (pyStr "dog")⟩

/-- Concrete store: the seed tree, a single root `Guess dog` with no
parent (identity 0). -/
def storeDogRoot : Store := ⟨1, fun _ => .Guess none (pyStr "dog")⟩

/-- Concrete empty store (the record at unallocated identities is an
arbitrary filler). -/
def storeEmpty : Store := ⟨0, fun _ => .Question none (pyStr "unallocated") 0 0⟩

/-! Helper lemmas about the store. -/

/-- Reading after an in-place overwrite. -/
theorem Store.data_set (h : Store) (i : Nat) (v : Node) (j : Nat) :
    (h.set i v).data j = if j = i then v else h.data j := rfl

/-- Reading after a parent assignment. -/
theorem data_setParent (h : Store) (i : Nat) (p : Option Nat) (j : Nat) :
    (setParent h i p).data j = if j = i then withParent (h.data i) p else h.data j := rfl

/-- The replace-child step only writes to the old guess's parent: reading
any other identity is unchanged. -/
theorem data_replaceChildStep_ne (h : Store) (og nq j : Nat)
    (hj : ∀ p, parentOf h og = some p → j ≠ p) :
    (replaceChildStep h og nq).data j = h.data j := by
  unfold replaceChildStep
  cases hpar : parentOf h og with
  | none => rfl
  | some p =>
    have hne : j ≠ p := hj p hpar
    cases hd : h.data p with
    | Guess pp nm => simp [hd]
    | Question pp q a b =>
      simp only [hd]
      by_cases h1 : pyEq h (h.size + 2) b og
      · simp [h1, Store.data_set, hne]
      · by_cases h2 : pyEq h (h.size + 2) a og
        · simp [h1, h2, Store.data_set, hne]
        · simp [h1, h2]

/-- Under the freshness hypotheses, the record of the newly allocated
`Question` in the store returned by `add_new_question`: parent `none`,
the given text, positive child the new guess, negative child the old
guess. -/
theorem add_new_question_data_new (h : Store) (g : Nat) (nm qt : List Nat)
    (hg : g < h.size) (hp : ∀ p, parentOf h g = some p → p < h.size) :
    ((add_new_question h g nm qt).1).data (h.size + 1) =
      Node.Question none qt h.size g := by
  have hgs : g ≠ h.size := by omega
  have hgs1 : g ≠ h.size + 1 := by omega
  have e2 : parentOf ((h.alloc (Node.Guess none nm)).1.alloc
      (Node.Question none qt h.size g)).1 g = parentOf h g := by
    simp [Store.alloc, parentOf, hgs, hgs1]
  rw [show (add_new_question h g nm qt).1 =
      setParent (setParent (replaceChildStep ((h.alloc (Node.Guess none nm)).1.alloc
        (Node.Question none qt h.size g)).1 g (h.size + 1)) h.size (some (h.size + 1)))
        g (some (h.size + 1)) from rfl]
  rw [data_setParent, if_neg (by omega : ¬ h.size + 1 = g),
    data_setParent, if_neg (by omega : ¬ h.size + 1 = h.size),
    data_replaceChildStep_ne]
  · simp [Store.alloc]
  · intro p hpar
    rw [e2] at hpar
    have := hp p hpar
    omega

/-- Claim C1 (code_bug evaluation): teaching at the cat guess (identity 1,
a non-root `Guess` whose parent is the root `Question` 0) allocates the
new `Question` at identity 4 and installs it as the root's positive
child, but leaves the new `Question`'s own parent reference `none`
instead of pointing at its grandparent 0 — the parent-link invariant
claimed after any teach fails for the `Question` node 0. -/
theorem c1_new_question_parent_left_none :
    (add_new_question storeCatDog 1 (pyStr "fox") (pyStr "has a bushy tail")).2.1 = 4 ∧
    ((add_new_question storeCatDog 1 (pyStr "fox") (pyStr "has a bushy tail")).1).data 0 =
      Node.Question none (pyStr "does it meow") 4 2 ∧
    parentOf (add_new_question storeCatDog 1 (pyStr "fox") (pyStr "has a bushy tail")).1 4 =
      none := by
  decide

/-- Claim C2 (code_bug evaluation): in the tree whose root `Question` 0
has two distinct but structurally equal `Guess dog` children (positive 1,
negative 2), teaching at the positive child 1 replaces the negative slot
(dataclass `==` matches the structurally equal sibling 2 first) instead
of the positive slot that actually held the taught node: afterwards the
root's children are (positive 1, negative 4), node 1 is still in place
with its parent redirected to 4, and node 2 is orphaned. -/
theorem c2_replace_child_uses_structural_equality :
    ((add_new_question storeDogDog 1 (pyStr "cat") (pyStr "does it meow")).1).data 0 =
      Node.Question none (pyStr "does it bark") 1 4 ∧
    ((add_new_question storeDogDog 1 (pyStr "cat") (pyStr "does it meow")).1).data 1 =
      Node.Guess (some 4) (pyStr "dog") ∧
    ((add_new_question storeDogDog 1 (pyStr "cat") (pyStr "does it meow")).1).data 2 =
      Node.Guess (some 0) (pyStr "dog") := by
  decide

/-- Claim C8: a round with a correct guess returns the store and root
unchanged with no save, and a round with a wrong guess always saves. -/
theorem c8_save_iff_teach (h : Store) (root g : Nat) (nm qt : List Nat) :
    do_guess h root g true nm qt = (h, root, false) ∧
    (do_guess h root g false nm qt).2.2 = true :=
  ⟨rfl, rfl⟩

/-- Claim C9 (counterexample): constructing a `Guess` with an empty animal
name and a `Question` with an empty question text both succeed — the
dataclasses perform no validation, so no `InvalidInput` failure exists. -/
theorem c9_empty_construction_succeeds :
    ((storeEmpty.alloc (Node.Guess none [])).1).data 0 = Node.Guess none [] ∧
    (((storeEmpty.alloc (Node.Guess none [])).1.alloc
        (Node.Question none [] 0 0)).1).data 1 = Node.Question none [] 0 0 := by
  decide

/-- Claim C9 (amended): node construction always succeeds and stores the
given fields verbatim — no trimming, no question-mark stripping, no
emptiness check. -/
theorem c9_construction_is_total_and_verbatim (h : Store) (v : Node) :
    ((h.alloc v).1).data ((h.alloc v).2) = v := by
  simp [Store.alloc]

/-- Claim C6: for every store, every taught guess `g` (allocated, with
its parent — if any — also allocated) and every pair of user inputs, the
`Question` constructed by the teach has the new `Guess` as its positive
child and the old guess `g` as its negative child. -/
theorem c6_new_question_polarity (h : Store) (g : Nat) (nm qt : List Nat)
    (hg : g < h.size) (hp : ∀ p, parentOf h g = some p → p < h.size) :
    (add_new_question h g nm qt).2.1 = h.size + 1 ∧
    (add_new_question h g nm qt).2.2 = h.size ∧
    ((add_new_question h g nm qt).1).data (h.size + 1) = Node.Question none qt h.size g :=
  ⟨rfl, rfl, add_new_question_data_new h g nm qt hg hp⟩

/-- Witness for claim C6 on the cat/dog store. -/
theorem c6_new_question_polarity_witness :
    (add_new_question storeCatDog 1 (pyStr "fox") (pyStr "has a bushy tail")).2.1 = 4 ∧
    (add_new_question storeCatDog 1 (pyStr "fox") (pyStr "has a bushy tail")).2.2 = 3 ∧
    ((add_new_question storeCatDog 1 (pyStr "fox") (pyStr "has a bushy tail")).1).data 4 =
      Node.Question none (pyStr "has a bushy tail") 3 1 :=
  c6_new_question_polarity storeCatDog 1 (pyStr "fox") (pyStr "has a bushy tail")
    (by decide) (fun p hp => by show p < 3; simp [parentOf, storeCatDog] at hp; omega)

/-- Claim C7: teaching at a root `Guess` (no parent) returns the new
`Question` as the new root, with the old root guess as its negative
child and the new guess as its positive child, and saves. -/
theorem c7_root_replacement (h : Store) (g : Nat) (nm qt : List Nat)
    (hg : g < h.size) (hroot : parentOf h g = none) :
    (do_guess h g g false nm qt).2.1 = h.size + 1 ∧
    (do_guess h g g false nm qt).2.2 = true ∧
    ((do_guess h g g false nm qt).1).data (h.size + 1) = Node.Question none qt h.size g := by
  refine ⟨?_, rfl, ?_⟩
  · show (if parentOf h g = none then (add_new_question h g nm qt).2.1 else g) = h.size + 1
    rw [if_pos hroot]
    rfl
  · exact add_new_question_data_new h g nm qt hg (fun p hp => by rw [hroot] at hp; cases hp)

/-- Witness for claim C7 on the seed single-guess store. -/
theorem c7_root_replacement_witness :
    (do_guess storeDogRoot 0 0 false (pyStr "cat") (pyStr "does it meow")).2.1 = 2 ∧
    (do_guess storeDogRoot 0 0 false (pyStr "cat") (pyStr "does it meow")).2.2 = true ∧
    ((do_guess storeDogRoot 0 0 false (pyStr "cat") (pyStr "does it meow")).1).data 2 =
      Node.Question none (pyStr "does it meow") 1 0 :=
  c7_root_replacement storeDogRoot 0 (pyStr "cat") (pyStr "does it meow") (by decide) rfl

/-- Auxiliary induction behind claim C5: from any node of a well-founded
tree, `play` terminates (for sufficient fuel) at a `Guess`, visiting
exactly the questions on the spec-dictated path. -/
theorem play_reaches_spec_path (h : Store) (ans : Nat → Bool) (i : Nat) (hi : IsTree h i) :
    ∀ k, ∃ vs g fuel, play h ans fuel k i = some (vs, g) ∧ SpecPath h ans k i vs g ∧
      ∃ p nm, h.data g = Node.Guess p nm := by
  induction hi with
  | guess i p nm hd =>
    intro k
    exact ⟨[], i, 1, by simp [play, hd], SpecPath.guess k i p nm hd, p, nm, hd⟩
  | question i p q a b hd hta htb iha ihb =>
    intro k
    cases hak : ans k with
    | true =>
      obtain ⟨vs, g, fuel, hplay, hpath, hg⟩ := iha (k + 1)
      exact ⟨i :: vs, g, fuel + 1, by simp [play, hd, hak, hplay],
        SpecPath.qyes k i p q a b vs g hd hak hpath, hg⟩
    | false =>
      obtain ⟨vs, g, fuel, hplay, hpath, hg⟩ := ihb (k + 1)
      exact ⟨i :: vs, g, fuel + 1, by simp [play, hd, hak, hplay],
        SpecPath.qno k i p q a b vs g hd hak hpath, hg⟩

/-- Claim C5: for every well-founded tree and every answer stream, `play`
from the root follows exactly the path dictated by positive-on-yes /
negative-on-no and ends the question-asking phase at the `Guess` at the
end of that path. -/
theorem c5_play_follows_spec_path (h : Store) (ans : Nat → Bool) (root : Nat)
    (hroot : IsTree h root) :
    ∃ vs g fuel, play h ans fuel 0 root = some (vs, g) ∧ SpecPath h ans 0 root vs g ∧
      ∃ p nm, h.data g = Node.Guess p nm :=
  play_reaches_spec_path h ans root hroot 0

/-- Witness for claim C5 on the cat/dog store with all-yes answers. -/
theorem c5_play_follows_spec_path_witness :
    ∃ vs g fuel, play storeCatDog (fun _ => true) fuel 0 0 = some (vs, g) ∧
      SpecPath storeCatDog (fun _ => true) 0 0 vs g ∧
      ∃ p nm, storeCatDog.data g = Node.Guess p nm :=
  c5_play_follows_spec_path storeCatDog (fun _ => true) 0
    (IsTree.question 0 none (pyStr "does it meow") 1 2 rfl
      (IsTree.guess 1 (some 0) (pyStr "cat") rfl)
      (IsTree.guess 2 (some 0) (pyStr "dog") rfl))

/-- Claim C3 (counterexample): an empty input line — and likewise an
all-whitespace one — is accepted and answered as yes, because the empty
stripped answer is a prefix of the word yes; the prompt does not
re-prompt on it as claimed. -/
theorem c3_empty_line_accepted_as_yes :
    get_yes_or_no [([] : List Nat)] = some true ∧
    get_yes_or_no [pyStr "   "] = some true := by
  decide

/-- Claim C3 (amended): the prompt returns the answer determined by the
first line whose stripped, lowered form is a prefix of yes or of no —
true exactly on the (possibly empty) prefixes of yes, false exactly on
the remaining accepted lines, which are the non-empty prefixes of no —
and re-prompts past every other line. -/
theorem c3_first_accepted_line_decides (input : List (List Nat)) :
    get_yes_or_no input =
      ((input.dropWhile fun l => !acceptsLine l).head?).map saysYes := by
  induction input with
  | nil => rfl
  | cons line rest ih =>
    by_cases hy : (pyLower (strip line)).isPrefixOf yesWord
    · simp [get_yes_or_no, List.dropWhile, acceptsLine, saysYes, hy]
    · by_cases hn : (pyLower (strip line)).isPrefixOf noWord
      · simp [get_yes_or_no, List.dropWhile, acceptsLine, saysYes, hy, hn]
      · simpa [get_yes_or_no, List.dropWhile, acceptsLine, hy, hn] using ih

/-! Character and list lemmas for the question-normalization claims. -/

/-- Lower-casing is idempotent. -/
theorem charLower_charLower (c : Nat) : charLower (charLower c) = charLower c := by
  unfold charLower
  split
  · split <;> omega
  · rfl

/-- Codes at or above 33 are not whitespace. -/
theorem isSpace_eq_false_of_ge (c : Nat) (h : 33 ≤ c) : isSpace c = false := by
  simp only [isSpace, Bool.or_eq_false_iff, decide_eq_false_iff_not]
  omega

/-- Lower-casing preserves whitespace-ness. -/
theorem isSpace_charLower (c : Nat) : isSpace (charLower c) = isSpace c := by
  unfold charLower
  split
  · rw [isSpace_eq_false_of_ge c (by omega), isSpace_eq_false_of_ge (c + 32) (by omega)]
  · rfl

/-- Upper-casing preserves whitespace-ness. -/
theorem isSpace_charUpper (c : Nat) : isSpace (charUpper c) = isSpace c := by
  unfold charUpper
  split
  · rw [isSpace_eq_false_of_ge c (by omega), isSpace_eq_false_of_ge (c - 32) (by omega)]
  · rfl

/-- Lower-casing preserves being a question mark. -/
theorem charLower_eq_qmark (c : Nat) : charLower c = qmark ↔ c = qmark := by
  unfold charLower qmark
  split
  · constructor <;> intro h <;> omega
  · exact Iff.rfl

/-- Upper-casing preserves being a question mark. -/
theorem charUpper_eq_qmark (c : Nat) : charUpper c = qmark ↔ c = qmark := by
  unfold charUpper qmark
  split
  · constructor <;> intro h <;> omega
  · exact Iff.rfl

/-- Mapping commutes with dropping the last element. -/
theorem dropLast_map (f : Nat → Nat) (l : List Nat) :
    (List.map f l).dropLast = List.map f l.dropLast := by
  induction l with
  | nil => rfl
  | cons a t ih =>
    cases t with
    | nil => rfl
    | cons b t2 =>
      calc (List.map f (a :: b :: t2)).dropLast
          = f a :: (List.map f (b :: t2)).dropLast := by
            simp [List.dropLast_cons₂]
        _ = f a :: List.map f (b :: t2).dropLast := by rw [ih]
        _ = List.map f ((a :: b :: t2).dropLast) := by
            rw [List.dropLast_cons₂, List.map_cons]

/-- The head surviving a dropWhile fails the dropped predicate. -/
theorem dropWhile_head_false (p : Nat → Bool) (l : List Nat) (c : Nat)
    (h : (l.dropWhile p).head? = some c) : p c = false := by
  induction l with
  | nil => cases h
  | cons a t ih =>
    rw [List.dropWhile_cons] at h
    by_cases hp : p a = true
    · exact ih (by simpa [hp] using h)
    · rw [if_neg (by simp [hp])] at h
      cases h
      simpa using hp

/-- Right-stripping yields a prefix of the original list. -/
theorem stripRight_append (m : List Nat) : ∃ s, stripRight m ++ s = m := by
  refine ⟨(m.reverse.takeWhile isSpace).reverse, ?_⟩
  unfold stripRight
  rw [← List.reverse_append, List.takeWhile_append_dropWhile, List.reverse_reverse]

/-- The head of a stripped list is not whitespace. -/
theorem strip_head_not_space (l : List Nat) (c : Nat)
    (h : (strip l).head? = some c) : isSpace c = false := by
  obtain ⟨s, hs⟩ := stripRight_append (stripLeft l)
  have hh : (stripLeft l).head? = some c := by
    rw [← hs, List.head?_append]
    unfold strip at h
    rw [h]
    rfl
  exact dropWhile_head_false isSpace l c hh

/-- The last element of a stripped list is not whitespace. -/
theorem strip_getLast_not_space (l : List Nat) (c : Nat)
    (h : (strip l).getLast? = some c) : isSpace c = false := by
  unfold strip stripRight at h
  rw [List.getLast?_reverse] at h
  exact dropWhile_head_false isSpace (stripLeft l).reverse c h

/-- A list whose head fails the predicate is unchanged by dropWhile. -/
theorem dropWhile_eq_self_of_head (p : Nat → Bool) (l : List Nat)
    (h : ∀ c, l.head? = some c → p c = false) : l.dropWhile p = l := by
  cases l with
  | nil => rfl
  | cons a t => rw [List.dropWhile_cons, if_neg (by simp [h a rfl])]

/-- A list with no whitespace at either end is unchanged by stripping. -/
theorem strip_eq_self (l : List Nat)
    (hh : ∀ c, l.head? = some c → isSpace c = false)
    (hl : ∀ c, l.getLast? = some c → isSpace c = false) : strip l = l := by
  unfold strip stripLeft stripRight
  rw [dropWhile_eq_self_of_head isSpace l hh,
    dropWhile_eq_self_of_head isSpace l.reverse (by
      intro c hc
      rw [List.head?_reverse] at hc
      exact hl c hc),
    List.reverse_reverse]

/-- The result of lower-then-capitalize on a non-empty list, in explicit
form: the upper-lower image of the head followed by the lowered tail. -/
theorem pyCapitalize_pyLower_cons (c : Nat) (cs : List Nat) :
    pyCapitalize (pyLower (c :: cs)) = charUpper (charLower c) :: List.map charLower cs := by
  have hmap : List.map charLower (List.map charLower cs) = List.map charLower cs := by
    rw [List.map_map]
    exact List.map_congr_left fun a _ => charLower_charLower a
  show pyCapitalize (charLower c :: List.map charLower cs) = _
  simp only [pyCapitalize, pyLower]
  rw [hmap]

/-- Python's lower-then-capitalize equals lower-everything followed by
upper-casing only the first character. -/
theorem pyCapitalize_pyLower (t : List Nat) :
    pyCapitalize (pyLower t) = capitalizeFirst (pyLower t) := by
  cases t with
  | nil => rfl
  | cons c cs =>
    rw [pyCapitalize_pyLower_cons]
    simp [pyLower, capitalizeFirst]

/-- The code's normalization of a stripped line coincides with the form
claimed in C10. -/
theorem normalizeQuestion_eq_claim (l : List Nat) :
    normalizeQuestion (strip l) = claimQuestionText l := by
  unfold normalizeQuestion claimQuestionText
  rw [pyCapitalize_pyLower]

/-- Any text returned by `get_question` is the code's normalization of
some non-blank input line (or was already the pending candidate). -/
theorem get_question_aux_accepted (input : List (List Nat)) :
    ∀ (pending : Option (List Nat)) (q : List Nat),
      get_question_aux pending input = some q →
      (∃ l, l ∈ input ∧ strip l ≠ [] ∧ q = normalizeQuestion (strip l)) ∨ pending = some q := by
  induction input with
  | nil => intro pending q h; cases h
  | cons line rest ih =>
    intro pending q h
    cases pending with
    | some q0 =>
      by_cases hy : (pyLower (strip line)).isPrefixOf yesWord
      · right
        simp only [get_question_aux, hy, if_pos] at h
        simpa using h
      · by_cases hn : (pyLower (strip line)).isPrefixOf noWord
        · simp only [get_question_aux, hy, hn] at h
          simp only [Bool.false_eq_true, if_false, if_true] at h
          rcases ih none q h with ⟨l, hl, h1, h2⟩ | hp
          · exact Or.inl ⟨l, List.mem_cons_of_mem _ hl, h1, h2⟩
          · cases hp
        · simp only [get_question_aux, hy, hn] at h
          simp only [Bool.false_eq_true, if_false] at h
          rcases ih (some q0) q h with ⟨l, hl, h1, h2⟩ | hp
          · exact Or.inl ⟨l, List.mem_cons_of_mem _ hl, h1, h2⟩
          · exact Or.inr hp
    | none =>
      by_cases ht : strip line = []
      · simp only [get_question_aux, ht, if_pos] at h
        rcases ih none q h with ⟨l, hl, h1, h2⟩ | hp
        · exact Or.inl ⟨l, List.mem_cons_of_mem _ hl, h1, h2⟩
        · cases hp
      · simp only [get_question_aux, ht, if_neg] at h
        rcases ih (some (normalizeQuestion (strip line))) q h with ⟨l, hl, h1, h2⟩ | hp
        · exact Or.inl ⟨l, List.mem_cons_of_mem _ hl, h1, h2⟩
        · exact Or.inl ⟨line, List.mem_cons_self _ _, ht, by
            cases hp
            rfl⟩

/-- Core of the amended claim C4: on a stripped, non-empty input line of
good shape, the code's normalization yields a non-empty, trimmed text
with no trailing question mark. -/
theorem normalizeQuestion_good (t : List Nat) (hne : t ≠ [])
    (hh : ∀ c, t.head? = some c → isSpace c = false)
    (hl : ∀ c, t.getLast? = some c → isSpace c = false)
    (hs : goodShape t) :
    normalizeQuestion t ≠ [] ∧ (normalizeQuestion t).getLast? ≠ some qmark ∧
      strip (normalizeQuestion t) = normalizeQuestion t := by
  obtain ⟨c, cs, rfl⟩ : ∃ c cs, t = c :: cs := by
    cases t with
    | nil => exact absurd rfl hne
    | cons c cs => exact ⟨c, cs, rfl⟩
  obtain ⟨-, himpl⟩ := hs
  have hcsp : isSpace c = false := hh c rfl
  have husp : isSpace (charUpper (charLower c)) = false := by
    rw [isSpace_charUpper, isSpace_charLower]
    exact hcsp
  have hnq : normalizeQuestion (c :: cs) =
      if (charUpper (charLower c) :: List.map charLower cs).getLast? = some qmark
      then (charUpper (charLower c) :: List.map charLower cs).dropLast
      else (charUpper (charLower c) :: List.map charLower cs) := by
    unfold normalizeQuestion
    rw [pyCapitalize_pyLower_cons]
  rw [hnq]
  cases cs with
  | nil =>
    by_cases hu : charUpper (charLower c) = qmark
    · exfalso
      have hc : c = qmark := (charLower_eq_qmark c).mp ((charUpper_eq_qmark (charLower c)).mp hu)
      have h2 := himpl (by simp [hc])
      exact h2.1 rfl
    · rw [if_neg (by simp [hu])]
      refine ⟨by simp, by simp [hu], strip_eq_self _ ?_ ?_⟩
      · intro d hd
        simp only [List.head?_cons, Option.some.injEq] at hd
        rw [← hd]
        exact husp
      · intro d hd
        simp only [List.map_nil, List.getLast?_singleton, Option.some.injEq] at hd
        rw [← hd]
        exact husp
  | cons d ds =>
    obtain ⟨e, he⟩ : ∃ e, (d :: ds).getLast? = some e := by
      cases hgl : (d :: ds).getLast? with
      | none => exact absurd (List.getLast?_eq_none_iff.mp hgl) (by simp)
      | some e => exact ⟨e, rfl⟩
    have hqlast : (charUpper (charLower c) :: List.map charLower (d :: ds)).getLast? =
        some (charLower e) := by
      rw [List.map_cons, List.getLast?_cons_cons, ← List.map_cons, List.getLast?_map, he]
      rfl
    have htlast : (c :: d :: ds).getLast? = some e := by
      rw [List.getLast?_cons_cons, he]
    have hesp : isSpace e = false := hl e htlast
    by_cases heq : e = qmark
    · rw [if_pos (by rw [hqlast, (charLower_eq_qmark e).mpr heq])]
      have hdl := himpl (by rw [htlast, heq])
      have hdlc : (c :: d :: ds).dropLast = c :: (d :: ds).dropLast :=
        List.dropLast_cons_of_ne_nil (by simp)
      have hql : (charUpper (charLower c) :: List.map charLower (d :: ds)).dropLast =
          charUpper (charLower c) :: List.map charLower ((d :: ds).dropLast) := by
        rw [List.dropLast_cons_of_ne_nil (by simp), dropLast_map]
      rw [hql]
      cases hdd : (d :: ds).dropLast with
      | nil =>
        have hc0 := hdl.2 c (by rw [hdlc, hdd]; simp)
        refine ⟨by simp, ?_, strip_eq_self _ ?_ ?_⟩
        · simp [charUpper_eq_qmark, charLower_eq_qmark, hc0.1]
        · intro x hx
          simp only [List.map_nil, List.head?_cons, Option.some.injEq] at hx
          rw [← hx]
          exact husp
        · intro x hx
          simp only [List.map_nil, List.getLast?_singleton, Option.some.injEq] at hx
          rw [← hx]
          exact husp
      | cons x xs =>
        obtain ⟨c0, hc0l⟩ : ∃ c0, (x :: xs).getLast? = some c0 := by
          cases hgl : (x :: xs).getLast? with
          | none => exact absurd (List.getLast?_eq_none_iff.mp hgl) (by simp)
          | some c0 => exact ⟨c0, rfl⟩
        have hprop := hdl.2 c0 (by rw [hdlc, hdd, List.getLast?_cons_cons, hc0l])
        have hql2 : (charUpper (charLower c) :: List.map charLower (x :: xs)).getLast? =
            some (charLower c0) := by
          rw [List.map_cons, List.getLast?_cons_cons, ← List.map_cons, List.getLast?_map, hc0l]
          rfl
        refine ⟨by simp, ?_, strip_eq_self _ ?_ ?_⟩
        · rw [hql2]
          simp [charLower_eq_qmark, hprop.1]
        · intro y hy
          simp only [List.map_cons, List.head?_cons, Option.some.injEq] at hy
          rw [← hy]
          exact husp
        · intro y hy
          rw [hql2] at hy
          simp only [Option.some.injEq] at hy
          rw [← hy, isSpace_charLower]
          exact hprop.2
    · rw [if_neg (by rw [hqlast]; simp [heq, charLower_eq_qmark])]
      refine ⟨by simp, by rw [hqlast]; simp [heq, charLower_eq_qmark], strip_eq_self _ ?_ ?_⟩
      · intro x hx
        simp only [List.head?_cons, Option.some.injEq] at hx
        rw [← hx]
        exact husp
      · intro x hx
        rw [hqlast] at hx
        simp only [Option.some.injEq] at hx
        rw [← hx, isSpace_charLower]
        exact hesp

/-- Claim C4 (counterexample): three accepted and confirmed inputs whose
stored question text violates the claim — a lone question mark stores the
empty text, a double question mark stores text still ending in one, and a
question mark after a space stores text with trailing whitespace. -/
theorem c4_normalization_violations :
    get_question [pyStr "?", pyStr "y"] = some [] ∧
    get_question [pyStr "ok??", pyStr "y"] = some (pyStr "Ok?") ∧
    get_question [pyStr "ok ?", pyStr "y"] = some (pyStr "Ok ") := by
  decide

/-- Claim C4 (amended): every text returned by `get_question` is the
code's normalization of some non-blank input line, and whenever that
line's stripped form has good shape — it does not end in a question mark
preceded by nothing, another question mark, or whitespace — the stored
text is non-empty, has no trailing question mark, and is trimmed. -/
theorem c4_stored_text_properties (input : List (List Nat)) (q : List Nat)
    (h : get_question input = some q) :
    ∃ l, l ∈ input ∧ strip l ≠ [] ∧ q = normalizeQuestion (strip l) ∧
      (goodShape (strip l) → q ≠ [] ∧ q.getLast? ≠ some qmark ∧ strip q = q) := by
  rcases get_question_aux_accepted input none q h with ⟨l, hl, hne, hq⟩ | hp
  · refine ⟨l, hl, hne, hq, fun hgs => ?_⟩
    rw [hq]
    exact normalizeQuestion_good (strip l) hne (strip_head_not_space l)
      (strip_getLast_not_space l) hgs
  · cases hp

/-- Witness for claim C4 on a confirmed well-shaped input line. -/
theorem c4_stored_text_properties_witness :
    ∃ l, l ∈ [pyStr "Does it Meow", pyStr "y"] ∧ strip l ≠ [] ∧
      pyStr "Does it meow" = normalizeQuestion (strip l) ∧
      (goodShape (strip l) → pyStr "Does it meow" ≠ [] ∧
        (pyStr "Does it meow").getLast? ≠ some qmark ∧
        strip (pyStr "Does it meow") = pyStr "Does it meow") :=
  c4_stored_text_properties [pyStr "Does it Meow", pyStr "y"] (pyStr "Does it meow")
    (by decide)

/-- Claim C10: every text returned by `get_question` is, for some
accepted non-blank input line, that line trimmed, with every character
lowercased and then only the first character capitalized, with at most
one trailing question mark removed afterwards. -/
theorem c10_stored_text_is_lower_capitalized (input : List (List Nat)) (q : List Nat)
    (h : get_question input = some q) :
    ∃ l, l ∈ input ∧ strip l ≠ [] ∧ q = claimQuestionText l := by
  rcases get_question_aux_accepted input none q h with ⟨l, hl, hne, hq⟩ | hp
  · exact ⟨l, hl, hne, by rw [hq, normalizeQuestion_eq_claim]⟩
  · cases hp

/-- Witness for claim C10 on an input with interior upper-case letters
and a trailing question mark. -/
theorem c10_stored_text_is_lower_capitalized_witness :
    ∃ l, l ∈ [pyStr "does it MEOW?", pyStr "y"] ∧ strip l ≠ [] ∧
      pyStr "Does it meow" = claimQuestionText l :=
  c10_stored_text_is_lower_capitalized [pyStr "does it MEOW?", pyStr "y"]
    (pyStr "Does it meow") (by decide)

end AnimalGuess
